import Mathlib

/-!
Verification of `nbaMovements.py`.

The module has four parts: the reshaper `get_movements_df`, which flattens the
per-moment per-entity JSON structure into a table while mutating its input in
place; the geometry helpers `travel_dist` and `player_dist`; and the court
diagram builder `draw_court`.

The reshaper is embedded with explicit state passing: Python's
`player.extend(...)` mutates the record stored inside the moments list, and
`moments.index(moment)` searches the *current*, already part-mutated, list by
value, so the evolving list is threaded through the recursion.  Scalars of the
tabular pipeline are modelled as `Rat`; the real-valued geometry helpers are
modelled over `ℝ` with `Real.sqrt` standing for floating-point `sqrt`.
A pandas cell is `Option Rat`, with `none` standing for a missing value (NaN),
as produced when `pd.DataFrame` pads ragged rows.
-/


namespace NbaMovements

/-- One raw moment of the `moments` list of the JSON: positions 0..4 are the
quarter, a timestamp, the game clock, the shot clock and an unused field, and
position 5 holds the entity-position records (each a plain list of numbers). -/
structure Moment where
  quarter : Rat
  tstamp : Rat
  game_clock : Rat
  shot_clock : Rat
  unused : Rat
  players : List (List Rat)
deriving DecidableEq

/-- One roster entry of `home["players"]` / `visitor["players"]`. -/
structure Player where
  playerid : Rat
  firstname : String
  lastname : String
  jersey : String
deriving DecidableEq

/-- The input JSON of the reshaper: the two rosters and the moments list. -/
structure MovJson where
  home_players : List Player
  visitor_players : List Player
  moments : List Moment
deriving DecidableEq

/-- One row of the resulting DataFrame, with the fixed column schema of the
source (`headers` plus the two derived columns).  Numeric cells are `Option`
valued: `none` is a missing value (NaN). -/
structure Row where
  team_id : Option Rat
  player_id : Option Rat
  x_loc : Option Rat
  y_loc : Option Rat
  radius : Option Rat
  moment : Option Rat
  game_clock : Option Rat
  shot_clock : Option Rat
  player_name : String
  player_jersey : Option String
deriving DecidableEq

/-- Python `moments.index(moment)`: position of the first element of the list
that compares equal to the given value. -/
def listIndex (ms : List Moment) (m : Moment) : Nat :=
  ms.findIdx (fun x => decide (x = m))

/-- `player.extend((idx, moment[2], moment[3]))`: append the moment index, the
game clock and the shot clock to an entity-position record. -/
def extendRow (p : List Rat) (idx : Nat) (gc sc : Rat) : List Rat :=
  p ++ [(idx : Rat), gc, sc]

/-- The inner loop of the reshaper: process the players of the moment at
position `i`, starting at player position `k`, for `n` more players.  Each
step recomputes `moments.index(moment)` against the current list, extends the
record in place, and appends it to the flat row list. -/
def stepPlayers : List Moment → Nat → Nat → Nat → List Moment × List (List Rat)
  | ms, _, _, 0 => (ms, [])
  | ms, i, k, n + 1 =>
    match ms[i]? with
    | none => (ms, [])
    | some m =>
      match m.players[k]? with
      | none => (ms, [])
      | some p =>
        let p2 := extendRow p (listIndex ms m) m.game_clock m.shot_clock
        let ms2 := ms.set i { m with players := m.players.set k p2 }
        let r := stepPlayers ms2 i (k + 1) n
        (r.1, p2 :: r.2)

/-- The outer loop of the reshaper: process the moments from position `i` on,
for `n` more moments, threading the mutated moments list through. -/
def stepMoments : List Moment → Nat → Nat → List Moment × List (List Rat)
  | ms, _, 0 => (ms, [])
  | ms, i, n + 1 =>
    match ms[i]? with
    | none => (ms, [])
    | some m =>
      let r1 := stepPlayers ms i 0 m.players.length
      let r2 := stepMoments r1.1 (i + 1) n
      (r2.1, r1.2 ++ r2.2)

/-- Lines 62–69 of the source: the double loop that extends every record and
collects `player_moments`.  Returns the final (mutated) moments list together
with the collected rows. -/
def enrich (ms : List Moment) : List Moment × List (List Rat) :=
  stepMoments ms 0 ms.length

/-- The roster lookup `id_dict`: player ids are inserted iterating home then
visitor players (a later entry overwrites an earlier one with the same id),
and finally `-1` is mapped to `("ball", NaN)` — overwriting any roster entry
with id `-1`.  A missing key is a failed lookup (`none`, Python `KeyError`). -/
def id_dict (ps : List Player) (x : Rat) : Option (String × Option String) :=
  if x = -1 then some ("ball", none)
  else ((ps.filter (fun p => decide (p.playerid = x))).getLast?).map
    (fun p => (p.firstname ++ " " ++ p.lastname, some p.jersey))

/-- `pd.DataFrame` padding of one raw row to 8 cells: present values, then
missing cells (`none`) up to the 8 columns of `headers`. -/
def padRow (r : List Rat) : List (Option Rat) :=
  r.map some ++ List.replicate (8 - r.length) none

/-- The number of columns `pd.DataFrame` infers from a list of raw rows: the
maximum row length. -/
def maxLen (rows : List (List Rat)) : Nat :=
  rows.foldr (fun r acc => max r.length acc) 0

/-- Build one table row from a raw (possibly padded) row: read the 8 cells,
then resolve `player_name` / `player_jersey` through `id_dict`; a missing id
cell or an id absent from the lookup fails (Python `KeyError`). -/
def mkRow (ps : List Player) (r : List Rat) : Option Row :=
  match (padRow r).getD 1 none with
  | none => none
  | some pid =>
    match id_dict ps pid with
    | none => none
    | some nj =>
      some { team_id := (padRow r).getD 0 none
             player_id := some pid
             x_loc := (padRow r).getD 2 none
             y_loc := (padRow r).getD 3 none
             radius := (padRow r).getD 4 none
             moment := (padRow r).getD 5 none
             game_clock := (padRow r).getD 6 none
             shot_clock := (padRow r).getD 7 none
             player_name := nj.1
             player_jersey := nj.2 }

/-- The two `df.player_id.map(...)` passes: every row must resolve, a single
failing lookup aborts the whole construction. -/
def rowsToDf (ps : List Player) : List (List Rat) → Option (List Row)
  | [] => some []
  | r :: rest =>
    match mkRow ps r, rowsToDf ps rest with
    | some row, some t => some (row :: t)
    | _, _ => none

/-- `pd.DataFrame(player_moments, columns=headers)` followed by the two lookup
columns: an empty row list yields an empty table; otherwise the inferred
column count must be exactly the 8 headers, then every row is resolved. -/
def makeDf (ps : List Player) (rows : List (List Rat)) : Option (List Row) :=
  if rows.isEmpty then some []
  else if maxLen rows = 8 then rowsToDf ps rows else none

/-- `get_movements_df`, including its side effects: the first component is the
returned table (or `none` when the construction raises), the second the final
mutated moments list, the third the final `home["players"]` list, which the
source extends with the visitor players before building `id_dict`. -/
def get_movements_df_full (j : MovJson) :
    Option (List Row) × List Moment × List Player :=
  (makeDf (j.home_players ++ j.visitor_players) (enrich j.moments).2,
   (enrich j.moments).1,
   j.home_players ++ j.visitor_players)

/-- The value returned by `get_movements_df` (`none` = a raised error). -/
def get_movements_df (j : MovJson) : Option (List Row) :=
  (get_movements_df_full j).1

/-- `scipy.spatial.distance.euclidean` on two 2D points. -/
noncomputable def euclidean (a b : ℝ × ℝ) : ℝ :=
  Real.sqrt ((a.1 - b.1) ^ 2 + (a.2 - b.2) ^ 2)

/-- `travel_dist`: sum of the Euclidean distances between consecutive points
(`np.diff`, square, row-sum, sqrt, sum). -/
noncomputable def travel_dist : List (ℝ × ℝ) → ℝ
  | a :: b :: rest =>
    Real.sqrt ((b.1 - a.1) ^ 2 + (b.2 - a.2) ^ 2) + travel_dist (b :: rest)
  | _ => 0

/-- `player_dist`: `[euclidean(player_a.iloc[i], player_b.iloc[i]) for i in
range(len(player_a))]`.  Indexing past the end of either frame raises
(`none`); note the range is driven by the first argument only. -/
noncomputable def player_dist (pa pb : List (ℝ × ℝ)) : Option (List ℝ) :=
  (List.range pa.length).mapM (fun i =>
    match pa[i]?, pb[i]? with
    | some a, some b => some (euclidean a b)
    | _, _ => none)

/-- A matplotlib patch of `draw_court`: a rectangle (anchor, width, height), a
circle (center, radius) or an arc (center, width, height, theta1, theta2),
together with the styling arguments it was constructed with. -/
inductive Patch where
  | rect (x y w h lw : Rat) (color : String) (zorder : Rat) (fill : Bool)
  | circle (x y r lw : Rat) (color : String) (zorder : Rat) (fill : Bool)
  | arc (x y w h t1 t2 lw : Rat) (color : String) (zorder : Rat)
deriving DecidableEq

/-- `draw_court`: the 20 fixed patches, in the order of `court_elements`. -/
def draw_court (color : String) (lw zorder : Rat) : List Patch :=
  [Patch.circle 5.35 (-25) 0.75 lw color zorder false,
   Patch.rect 4 (-28) 0 6 lw color zorder true,
   Patch.rect 0 (-33) 19 16 lw color zorder false,
   Patch.rect 0 (-50) 94 50 lw color zorder false,
   Patch.rect 0 (-31) 19 12 lw color zorder false,
   Patch.circle 19 (-25) 6 lw color zorder false,
   Patch.rect 0 (-3) 14 0 lw color zorder true,
   Patch.rect 0 (-47) 14 0 lw color zorder true,
   Patch.arc 5 (-25) 47.5 47.5 292 68 lw color zorder,
   Patch.circle 88.65 (-25) 0.75 lw color zorder false,
   Patch.rect 90 (-28) 0 6 lw color zorder true,
   Patch.rect 75 (-33) 19 16 lw color zorder false,
   Patch.rect 75 (-31) 19 12 lw color zorder false,
   Patch.circle 75 (-25) 6 lw color zorder false,
   Patch.rect 80 (-3) 14 0 lw color zorder true,
   Patch.rect 80 (-47) 14 0 lw color zorder true,
   Patch.arc 89 (-25) 47.5 47.5 112 248 lw color zorder,
   Patch.rect 47 (-50) 0 50 lw color zorder true,
   Patch.circle 47 (-25) 6 lw color zorder false,
   Patch.circle 47 (-25) 2 lw color zorder false]

/-- The coordinates (anchor or center) of a patch. -/
def patchXY : Patch → Rat × Rat
  | .rect x y _ _ _ _ _ _ => (x, y)
  | .circle x y _ _ _ _ _ => (x, y)
  | .arc x y _ _ _ _ _ _ _ => (x, y)

/-- The fixed coordinate list of the 20 court primitives, in drawing order. -/
def courtXY : List (Rat × Rat) :=
  [(5.35, -25), (4, -28), (0, -33), (0, -50), (0, -31), (19, -25), (0, -3),
   (0, -47), (5, -25), (88.65, -25), (90, -28), (75, -33), (75, -31),
   (75, -25), (80, -3), (80, -47), (89, -25), (47, -50), (47, -25), (47, -25)]

/-- The moment at position `i` after the enrichment pass: every record gets
the positional index, the game clock and the shot clock appended. -/
def extMoment (i : Nat) (m : Moment) : Moment :=
  { m with players := m.players.map (fun p => extendRow p i m.game_clock m.shot_clock) }

/-- Closed form of the mutated tail of the moments list from position `i` on. -/
def enrichedTail : Nat → List Moment → List Moment
  | _, [] => []
  | i, m :: rest => extMoment i m :: enrichedTail (i + 1) rest

/-- Closed form of the collected rows from moment position `i` on. -/
def rowsTail : Nat → List Moment → List (List Rat)
  | _, [] => []
  | i, m :: rest =>
    m.players.map (fun p => extendRow p i m.game_clock m.shot_clock) ++ rowsTail (i + 1) rest

/-- Following the spec (§3, §4.2 step 5): one flattened table row for an
entity-position record `p` of the moment at positional index `i` — the
record's five fields under the fixed schema, then the moment's positional
index, its game clock and shot clock, then the display name and jersey
resolved through the roster lookup. -/
def specRow (ps : List Player) (i : Nat) (gc sc : Rat) (p : List Rat) : Row :=
  { team_id := some (p.getD 0 0)
    player_id := some (p.getD 1 0)
    x_loc := some (p.getD 2 0)
    y_loc := some (p.getD 3 0)
    radius := some (p.getD 4 0)
    moment := some (i : Rat)
    game_clock := some gc
    shot_clock := some sc
    player_name := ((id_dict ps (p.getD 1 0)).getD ("", none)).1
    player_jersey := ((id_dict ps (p.getD 1 0)).getD ("", none)).2 }

/-- Following the spec (§4.2 step 3): rows from moment position `i` on, in
moment-then-entity order. -/
def specTail (ps : List Player) : Nat → List Moment → List Row
  | _, [] => []
  | i, m :: rest =>
    m.players.map (specRow ps i m.game_clock m.shot_clock) ++ specTail ps (i + 1) rest

/-- Following the spec (§4.2 result guarantee): the table the Reshaper must
return — one row per (moment, entity) pair, moment-major, in input order. -/
def specTable (j : MovJson) : List Row :=
  specTail (j.home_players ++ j.visitor_players) 0 j.moments

def c1json : MovJson :=
  { home_players := [{ playerid := 2, firstname := "A", lastname := "B", jersey := "7" }],
    visitor_players := [],
    moments :=
      [{ quarter := 0, tstamp := 0, game_clock := 10, shot_clock := 20, unused := 0,
         players := [[1, 2]] },
       { quarter := 0, tstamp := 0, game_clock := 10, shot_clock := 20, unused := 0,
         players := [[1, 2, 0, 10, 20]] }] }

def c2json : MovJson :=
  { home_players := [{ playerid := 1, firstname := "A", lastname := "B", jersey := "10" }],
    visitor_players := [],
    moments :=
      [{ quarter := 1, tstamp := 0, game_clock := 700, shot_clock := 24, unused := 0,
         players := [[10, 1, 3, 4, 5]] },
       { quarter := 1, tstamp := 1, game_clock := 699, shot_clock := 23, unused := 0,
         players := [[10, 1, 6, 8, 5]] }] }

def c5json : MovJson :=
  { home_players := [{ playerid := 1, firstname := "A", lastname := "B", jersey := "10" }],
    visitor_players := [],
    moments :=
      [{ quarter := 1, tstamp := 0, game_clock := 700, shot_clock := 24, unused := 0,
         players := [[10, 99, 3, 4, 5]] }] }

def c9json : MovJson :=
  { home_players := [{ playerid := 1, firstname := "A", lastname := "B", jersey := "10" }],
    visitor_players := [{ playerid := 2, firstname := "C", lastname := "D", jersey := "11" }],
    moments :=
      [{ quarter := 1, tstamp := 0, game_clock := 700, shot_clock := 24, unused := 0,
         players := [[10, 1, 3, 4, 5]] }] }

theorem get_append_len {α : Type} (xs : List α) (y : α) (zs : List α) :
    (xs ++ y :: zs)[xs.length]? = some y := by
  induction xs with
  | nil => simp
  | cons a t ih => simpa using ih

theorem set_append_len {α : Type} (xs : List α) (y y' : α) (zs : List α) :
    (xs ++ y :: zs).set xs.length y' = xs ++ y' :: zs := by
  induction xs with
  | nil => rfl
  | cons a t ih => simp [ih]

theorem set_self {α : Type} :
    ∀ (l : List α) (i : Nat) (a : α), l[i]? = some a → l.set i a = l := by
  intro l
  induction l with
  | nil => intro i a h; simp at h
  | cons x t ih =>
    intro i a h
    cases i with
    | zero => simp at h; simp [h]
    | succ k =>
      simp only [List.getElem?_cons_succ] at h
      simp [ih k a h]

theorem findIdx_at {α : Type} (p : α → Bool) :
    ∀ (l : List α) (i : Nat) (x : α),
      l[i]? = some x → p x = true →
      (∀ j y, j < i → l[j]? = some y → p y = false) →
      l.findIdx p = i := by
  intro l
  induction l with
  | nil => intro i x h _ _; simp at h
  | cons a t ih =>
    intro i x h hp hmin
    cases i with
    | zero =>
      simp only [List.getElem?_cons_zero, Option.some.injEq] at h
      subst h
      simp [List.findIdx_cons, hp]
    | succ k =>
      have ha : p a = false := hmin 0 a (Nat.succ_pos k) (by simp)
      simp only [List.findIdx_cons, ha, cond_false]
      have ht : t.findIdx p = k := by
        apply ih k x (by simpa using h) hp
        intro j y hj hy
        exact hmin (j + 1) y (by omega) (by simpa using hy)
      omega

theorem listIndex_at (ms : List Moment) (i : Nat) (m : Moment)
    (hm : ms[i]? = some m)
    (h8 : ∀ j mo, j < i → ms[j]? = some mo → ∀ q ∈ mo.players, q.length = 8)
    (h5 : ∃ q ∈ m.players, q.length = 5) :
    listIndex ms m = i := by
  apply findIdx_at _ ms i m hm (by simp)
  intro j y hj hy
  simp only [decide_eq_false_iff_not]
  intro heq
  obtain ⟨q, hq, hq5⟩ := h5
  have h8j := h8 j y hj hy q (by rw [heq]; exact hq)
  omega

theorem stepPlayers_spec :
    ∀ (rest pre : List (List Rat)) (ms : List Moment) (i : Nat) (m : Moment),
      ms[i]? = some m →
      m.players = pre ++ rest →
      (∀ q ∈ pre, q.length = 8) →
      (∀ q ∈ rest, q.length = 5) →
      (∀ j mo, j < i → ms[j]? = some mo → ∀ q ∈ mo.players, q.length = 8) →
      stepPlayers ms i pre.length rest.length =
        (ms.set i { m with
            players := pre ++ rest.map (fun p => extendRow p i m.game_clock m.shot_clock) },
         rest.map (fun p => extendRow p i m.game_clock m.shot_clock)) := by
  intro rest
  induction rest with
  | nil =>
    intro pre ms i m hm hsplit _ _ _
    have h2 : pre = m.players := by rw [hsplit, List.append_nil]
    simp only [List.length_nil, List.map_nil, List.append_nil, stepPlayers, h2]
    rw [show ({ m with players := m.players } : Moment) = m from rfl, set_self ms i m hm]
  | cons p rest ih =>
    intro pre ms i m hm hsplit hpre hrest h8
    have hi : i < ms.length := by
      by_contra hlt
      rw [List.getElem?_eq_none (by omega)] at hm
      cases hm
    have hp5 : p.length = 5 := hrest p (by simp)
    have hpget : m.players[pre.length]? = some p := by
      rw [hsplit]; exact get_append_len pre p rest
    have hidx : listIndex ms m = i :=
      listIndex_at ms i m hm h8 ⟨p, by rw [hsplit]; simp, hp5⟩
    have hset : m.players.set pre.length (extendRow p i m.game_clock m.shot_clock) =
        pre ++ extendRow p i m.game_clock m.shot_clock :: rest := by
      rw [hsplit, set_append_len]
    have hm2 : (ms.set i { m with
        players := pre ++ extendRow p i m.game_clock m.shot_clock :: rest })[i]? =
        some { m with players := pre ++ extendRow p i m.game_clock m.shot_clock :: rest } := by
      simp [List.getElem?_set, hi]
    have h8b : ∀ j mo, j < i →
        (ms.set i { m with
          players := pre ++ extendRow p i m.game_clock m.shot_clock :: rest })[j]? = some mo →
        ∀ q ∈ mo.players, q.length = 8 := by
      intro j mo hj hget
      rw [List.getElem?_set, if_neg (by omega : ¬ i = j)] at hget
      exact h8 j mo hj hget
    have hpre2 : ∀ q ∈ pre ++ [extendRow p i m.game_clock m.shot_clock], q.length = 8 := by
      intro q hq
      rcases List.mem_append.mp hq with h | h
      · exact hpre q h
      · simp only [List.mem_singleton] at h
        subst h
        simp [extendRow, hp5]
    have hrest2 : ∀ q ∈ rest, q.length = 5 := fun q hq => hrest q (by simp [hq])
    have ihres := ih (pre ++ [extendRow p i m.game_clock m.shot_clock])
      (ms.set i { m with players := pre ++ extendRow p i m.game_clock m.shot_clock :: rest })
      i { m with players := pre ++ extendRow p i m.game_clock m.shot_clock :: rest }
      hm2 (by simp) hpre2 hrest2 h8b
    rw [show (pre ++ [extendRow p i m.game_clock m.shot_clock]).length = pre.length + 1
        by simp] at ihres
    simp only [List.length_cons, stepPlayers, hm, hpget, hidx, hset]
    rw [ihres]
    simp [List.set_set, List.append_assoc]

theorem stepMoments_spec :
    ∀ (todo done : List Moment),
      (∀ m ∈ done, ∀ q ∈ m.players, q.length = 8) →
      (∀ m ∈ todo, ∀ q ∈ m.players, q.length = 5) →
      stepMoments (done ++ todo) done.length todo.length =
        (done ++ enrichedTail done.length todo, rowsTail done.length todo) := by
  intro todo
  induction todo with
  | nil =>
    intro done _ _
    simp [stepMoments, enrichedTail, rowsTail]
  | cons m rest ih =>
    intro done hdone htodo
    have hm : (done ++ m :: rest)[done.length]? = some m := get_append_len done m rest
    have h8 : ∀ j mo, j < done.length → (done ++ m :: rest)[j]? = some mo →
        ∀ q ∈ mo.players, q.length = 8 := by
      intro j mo hj hget
      rw [List.getElem?_append, if_pos hj] at hget
      exact hdone mo (List.getElem?_mem hget)
    have spres := stepPlayers_spec m.players [] (done ++ m :: rest) done.length m hm
      (by simp) (by simp) (htodo m (by simp)) h8
    simp only [List.nil_append, List.length_nil] at spres
    rw [set_append_len] at spres
    have hdone2 : ∀ mo ∈ done ++ [extMoment done.length m], ∀ q ∈ mo.players, q.length = 8 := by
      intro mo hmo q hq
      rcases List.mem_append.mp hmo with h | h
      · exact hdone mo h q hq
      · simp only [List.mem_singleton] at h
        subst h
        simp only [extMoment, List.mem_map] at hq
        obtain ⟨p, hp, rfl⟩ := hq
        simp [extendRow, htodo m (by simp) p hp]
    have ihres := ih (done ++ [extMoment done.length m]) hdone2
      (fun mo hmo q hq => htodo mo (by simp [hmo]) q hq)
    simp only [List.append_assoc, List.singleton_append, List.length_append,
      List.length_singleton] at ihres
    simp only [List.length_cons, stepMoments, hm]
    rw [show ({ m with players := (
        List.map (fun p => extendRow p done.length m.game_clock m.shot_clock) m.players) } : Moment) =
        extMoment done.length m from rfl] at spres
    rw [spres]
    simp only []
    rw [ihres]
    simp [enrichedTail, rowsTail, List.append_assoc]

/-- Under the well-formedness of the source data (all records of length 5) the
enrichment pass appends to each record exactly its moment's positional index,
game clock and shot clock. -/
theorem enrich_spec (ms : List Moment)
    (h5 : ∀ m ∈ ms, ∀ q ∈ m.players, q.length = 5) :
    enrich ms = (enrichedTail 0 ms, rowsTail 0 ms) := by
  have := stepMoments_spec ms [] (by simp) h5
  simpa [enrich] using this

theorem length5 {α : Type} (p : List α) (h : p.length = 5) :
    ∃ a b c d e, p = [a, b, c, d, e] := by
  cases p with
  | nil => simp at h
  | cons a t =>
    cases t with
    | nil => simp at h
    | cons b t2 =>
      cases t2 with
      | nil => simp at h
      | cons c t3 =>
        cases t3 with
        | nil => simp at h
        | cons d t4 =>
          cases t4 with
          | nil => simp at h
          | cons e t5 =>
            cases t5 with
            | nil => exact ⟨a, b, c, d, e, rfl⟩
            | cons f t6 => simp at h

theorem mkRow_extendRow (ps : List Player) (p : List Rat) (i : Nat) (gc sc : Rat)
    (hp : p.length = 5) (hres : (id_dict ps (p.getD 1 0)).isSome = true) :
    mkRow ps (extendRow p i gc sc) = some (specRow ps i gc sc p) := by
  obtain ⟨a, b, c, d, e, rfl⟩ := length5 p hp
  obtain ⟨nj, hnj⟩ := Option.isSome_iff_exists.mp hres
  simp only [List.getD_cons_succ, List.getD_cons_zero] at hnj
  simp [mkRow, specRow, extendRow, padRow, hnj]

theorem rowsToDf_append (ps : List Player) :
    ∀ (xs ys : List (List Rat)) (t1 t2 : List Row),
      rowsToDf ps xs = some t1 → rowsToDf ps ys = some t2 →
      rowsToDf ps (xs ++ ys) = some (t1 ++ t2) := by
  intro xs
  induction xs with
  | nil =>
    intro ys t1 t2 h1 h2
    simp only [rowsToDf, Option.some.injEq] at h1
    subst h1
    simpa using h2
  | cons r rest ih =>
    intro ys t1 t2 h1 h2
    rcases hr : mkRow ps r with _ | row
    · simp [rowsToDf, hr] at h1
    · rcases ht : rowsToDf ps rest with _ | t
      · simp [rowsToDf, hr, ht] at h1
      · simp only [rowsToDf, hr, ht, Option.some.injEq] at h1
        subst h1
        simp [List.cons_append, rowsToDf, hr, ih ys t t2 ht h2]

theorem rowsToDf_map_ext (ps : List Player) (i : Nat) (gc sc : Rat) :
    ∀ (l : List (List Rat)),
      (∀ p ∈ l, p.length = 5) →
      (∀ p ∈ l, (id_dict ps (p.getD 1 0)).isSome = true) →
      rowsToDf ps (l.map (fun p => extendRow p i gc sc)) =
        some (l.map (specRow ps i gc sc)) := by
  intro l
  induction l with
  | nil => intro _ _; rfl
  | cons p rest ih =>
    intro h5 hres
    simp only [List.map_cons, rowsToDf,
      mkRow_extendRow ps p i gc sc (h5 p (by simp)) (hres p (by simp)),
      ih (fun q hq => h5 q (by simp [hq])) (fun q hq => hres q (by simp [hq]))]

theorem rowsToDf_rowsTail (ps : List Player) :
    ∀ (ms : List Moment) (i : Nat),
      (∀ m ∈ ms, ∀ p ∈ m.players, p.length = 5) →
      (∀ m ∈ ms, ∀ p ∈ m.players, (id_dict ps (p.getD 1 0)).isSome = true) →
      rowsToDf ps (rowsTail i ms) = some (specTail ps i ms) := by
  intro ms
  induction ms with
  | nil => intro i _ _; rfl
  | cons m rest ih =>
    intro i h5 hres
    simp only [rowsTail, specTail]
    exact rowsToDf_append ps _ _ _ _
      (rowsToDf_map_ext ps i m.game_clock m.shot_clock m.players
        (h5 m (by simp)) (hres m (by simp)))
      (ih (i + 1) (fun mo hmo => h5 mo (by simp [hmo]))
        (fun mo hmo => hres mo (by simp [hmo])))

theorem rowsTail_length (E : Nat) :
    ∀ (ms : List Moment) (i : Nat),
      (∀ m ∈ ms, m.players.length = E) →
      (rowsTail i ms).length = ms.length * E := by
  intro ms
  induction ms with
  | nil => intro i _; simp [rowsTail]
  | cons m rest ih =>
    intro i hE
    simp only [rowsTail, List.length_append, List.length_map, List.length_cons,
      hE m (by simp), ih (i + 1) (fun mo hmo => hE mo (by simp [hmo]))]
    ring

theorem specTail_length (ps : List Player) (E : Nat) :
    ∀ (ms : List Moment) (i : Nat),
      (∀ m ∈ ms, m.players.length = E) →
      (specTail ps i ms).length = ms.length * E := by
  intro ms
  induction ms with
  | nil => intro i _; simp [specTail]
  | cons m rest ih =>
    intro i hE
    simp only [specTail, List.length_append, List.length_map, List.length_cons,
      hE m (by simp), ih (i + 1) (fun mo hmo => hE mo (by simp [hmo]))]
    ring

theorem rowsTail_all8 :
    ∀ (ms : List Moment) (i : Nat),
      (∀ m ∈ ms, ∀ p ∈ m.players, p.length = 5) →
      ∀ r ∈ rowsTail i ms, r.length = 8 := by
  intro ms
  induction ms with
  | nil => intro i _ r hr; simp [rowsTail] at hr
  | cons m rest ih =>
    intro i h5 r hr
    simp only [rowsTail, List.mem_append, List.mem_map] at hr
    rcases hr with ⟨p, hp, rfl⟩ | hr
    · simp [extendRow, h5 m (by simp) p hp]
    · exact ih (i + 1) (fun mo hmo => h5 mo (by simp [hmo])) r hr

theorem maxLen_all8 :
    ∀ (rows : List (List Rat)), rows ≠ [] →
      (∀ r ∈ rows, r.length = 8) → maxLen rows = 8 := by
  intro rows
  induction rows with
  | nil => intro h _; exact absurd rfl h
  | cons r rest ih =>
    intro _ hall
    cases rest with
    | nil => simp [maxLen, hall r (by simp)]
    | cons r2 rest2 =>
      have h2 := ih (by simp) (fun q hq => hall q (by simp [hq]))
      simp only [maxLen] at h2 ⊢
      rw [List.foldr_cons, hall r (by simp), h2]
      simp

/-- C2: for every well-formed input JSON with `K` moments and `E` length-5
entity-position records per moment, all of whose entity ids resolve in the
roster lookup, the Reshaper returns exactly the table described by the spec:
`K * E` rows, moment-major then entity order, with the fixed column schema
(as fixed by the `Row` structure). -/
theorem reshaper_table_shape (j : MovJson) (K E : Nat)
    (hK : j.moments.length = K)
    (hE : ∀ m ∈ j.moments, m.players.length = E)
    (h5 : ∀ m ∈ j.moments, ∀ p ∈ m.players, p.length = 5)
    (hres : ∀ m ∈ j.moments, ∀ p ∈ m.players,
      (id_dict (j.home_players ++ j.visitor_players) (p.getD 1 0)).isSome = true) :
    get_movements_df j = some (specTable j) ∧ (specTable j).length = K * E := by
  have henr := enrich_spec j.moments h5
  have hlen : (specTable j).length = K * E := by
    rw [specTable, specTail_length _ E j.moments 0 hE, hK]
  refine ⟨?_, hlen⟩
  show (get_movements_df_full j).1 = some (specTable j)
  simp only [get_movements_df_full, henr]
  by_cases hnil : rowsTail 0 j.moments = []
  · have h0 := rowsTail_length E j.moments 0 hE
    rw [hnil] at h0
    simp only [List.length_nil] at h0
    have hs0 : (specTable j).length = 0 := by
      rw [hlen, ← hK]
      omega
    rw [List.length_eq_zero] at hs0
    simp [makeDf, hnil, hs0]
  · have hmax := maxLen_all8 _ hnil (rowsTail_all8 j.moments 0 h5)
    have hdf := rowsToDf_rowsTail (j.home_players ++ j.visitor_players) j.moments 0 h5 hres
    simp only [makeDf, hmax, if_pos, if_true]
    rw [if_neg (by simpa [List.isEmpty_iff] using hnil)]
    exact hdf

theorem reshaper_table_shape_witness :
    get_movements_df c2json = some (specTable c2json) ∧
      (specTable c2json).length = 2 * 1 :=
  reshaper_table_shape c2json 2 1 rfl (by decide) (by decide) (by decide)

theorem enrichedTail_get :
    ∀ (ms : List Moment) (k i : Nat),
      (enrichedTail k ms)[i]? = (ms[i]?).map (fun m => extMoment (k + i) m) := by
  intro ms
  induction ms with
  | nil => intro k i; simp [enrichedTail]
  | cons m rest ih =>
    intro k i
    cases i with
    | zero => simp [enrichedTail]
    | succ n =>
      simp only [enrichedTail, List.getElem?_cons_succ]
      rw [show k + (n + 1) = k + 1 + n from by omega]
      exact ih (k + 1) n

/-- C9: the Reshaper mutates its input structure in place: after a run every
entity-position record of every moment has had the moment's positional index,
its game clock and its shot clock appended, and the home roster's players
list has been extended with all visitor players. -/
theorem reshaper_mutates_input (j : MovJson)
    (h5 : ∀ m ∈ j.moments, ∀ p ∈ m.players, p.length = 5) :
    (get_movements_df_full j).2.2 = j.home_players ++ j.visitor_players ∧
    ∀ (i : Nat) (m : Moment), j.moments[i]? = some m →
      ((get_movements_df_full j).2.1)[i]? =
        some { m with players := (m.players.map
          (fun p => p ++ [(i : Rat), m.game_clock, m.shot_clock])) } := by
  refine ⟨rfl, ?_⟩
  intro i m hm
  have henr := enrich_spec j.moments h5
  show ((enrich j.moments).1)[i]? = _
  rw [henr]
  simp only []
  rw [enrichedTail_get j.moments 0 i, hm]
  simp [extMoment, extendRow]

theorem reshaper_mutates_input_witness :
    (get_movements_df_full c9json).2.2 = c9json.home_players ++ c9json.visitor_players ∧
    ∀ (i : Nat) (m : Moment), c9json.moments[i]? = some m →
      ((get_movements_df_full c9json).2.1)[i]? =
        some { m with players := (m.players.map
          (fun p => p ++ [(i : Rat), m.game_clock, m.shot_clock])) } :=
  reshaper_mutates_input c9json (by decide)

theorem map_some_append_getD {α : Type} :
    ∀ (xs : List α) (ys : List (Option α)) (k : Nat), k < xs.length →
      ((xs.map some) ++ ys).getD k none = xs[k]? := by
  intro xs
  induction xs with
  | nil => intro ys k h; simp at h
  | cons a t ih =>
    intro ys k h
    cases k with
    | zero => simp
    | succ n =>
      simp only [List.map_cons, List.cons_append, List.getD_cons_succ,
        List.getElem?_cons_succ]
      exact ih ys n (by simpa using h)

theorem mkRow_none_of_unresolved (ps : List Player) (r : List Rat) (pid : Rat)
    (hget : r[1]? = some pid) (hne : pid ≠ -1)
    (hros : ∀ p ∈ ps, p.playerid ≠ pid) :
    mkRow ps r = none := by
  have h1 : 1 < r.length := by
    by_contra h
    rw [List.getElem?_eq_none (by omega)] at hget
    cases hget
  have hcell : (padRow r).getD 1 none = some pid := by
    rw [padRow, map_some_append_getD r _ 1 h1, hget]
  have hdict : id_dict ps pid = none := by
    rw [id_dict, if_neg hne]
    have hfil : ps.filter (fun p => decide (p.playerid = pid)) = [] :=
      List.filter_eq_nil_iff.mpr (fun p hp => by simp [hros p hp])
    rw [hfil]
    rfl
  simp only [mkRow, hcell, hdict]

theorem rowsToDf_none_of_mem (ps : List Player) :
    ∀ (rows : List (List Rat)) (r : List Rat), r ∈ rows → mkRow ps r = none →
      rowsToDf ps rows = none := by
  intro rows
  induction rows with
  | nil => intro r hr; simp at hr
  | cons x rest ih =>
    intro r hr hnone
    rcases List.mem_cons.mp hr with rfl | hr2
    · simp [rowsToDf, hnone]
    · rcases hx : mkRow ps x with _ | row
      · simp [rowsToDf, hx]
      · simp [rowsToDf, hx, ih r hr2 hnone]

/-- C5: the roster lookup resolves the ball sentinel `-1` to the name "ball"
with an undefined jersey, and a record whose player id is not `-1` and is
absent from both rosters makes `get_movements_df` fail (no table is produced)
rather than yield a row. -/
theorem roster_lookup_total (j : MovJson) :
    (∀ ps : List Player, id_dict ps (-1) = some ("ball", none)) ∧
    (∀ r ∈ (enrich j.moments).2, ∀ pid : Rat,
      r[1]? = some pid → pid ≠ -1 →
      (∀ p ∈ j.home_players ++ j.visitor_players, p.playerid ≠ pid) →
      get_movements_df j = none) := by
  constructor
  · intro ps
    simp [id_dict]
  · intro r hr pid hget hne hros
    show (get_movements_df_full j).1 = none
    simp only [get_movements_df_full]
    have hnonempty : ¬ ((enrich j.moments).2.isEmpty = true) := by
      intro h
      rw [List.isEmpty_iff] at h
      rw [h] at hr
      simp at hr
    rw [makeDf, if_neg hnonempty]
    by_cases hmax : maxLen (enrich j.moments).2 = 8
    · rw [if_pos hmax]
      exact rowsToDf_none_of_mem _ _ r hr
        (mkRow_none_of_unresolved _ r pid hget hne hros)
    · rw [if_neg hmax]

theorem roster_lookup_total_witness :
    id_dict [] (-1) = some ("ball", none) ∧ get_movements_df c5json = none :=
  ⟨(roster_lookup_total c5json).1 [],
   (roster_lookup_total c5json).2 [10, 99, 3, 4, 5, 0, 700, 24] (by decide) 99
     (by decide) (by decide) (by decide)⟩

/-- C1 (the claim fails on the code): `c1json` is accepted by the Reshaper
(a table is returned), yet the record collected while processing the moment
at position 1 got moment-index 0 appended — `moments.index(moment)` finds the
already-mutated moment 0, which has become equal to moment 1 — where
positional enumeration would append 1. -/
theorem moment_index_by_value_search :
    (get_movements_df c1json).isSome = true ∧
    (enrich c1json.moments).2 = [[1, 2, 0, 10, 20], [1, 2, 0, 10, 20, 0, 10, 20]] ∧
    ((enrich c1json.moments).2.getD 1 []).getD 5 1 = 0 :=
  ⟨by decide, by decide, by decide⟩

/-- C6: a coordinate sequence of length 0 or 1 has travel distance 0. -/
theorem travel_dist_short (l : List (ℝ × ℝ)) (h : l.length = 0 ∨ l.length = 1) :
    travel_dist l = 0 := by
  rcases l with _ | ⟨a, _ | ⟨b, rest⟩⟩
  · rfl
  · rfl
  · simp at h

theorem travel_dist_short_witness : travel_dist [((5 : ℝ), 7)] = 0 :=
  travel_dist_short [((5 : ℝ), 7)] (Or.inr rfl)

/-- C7: travel distance is translation invariant — shifting every coordinate
by a constant vector does not change the result. -/
theorem travel_dist_translation_invariant (l : List (ℝ × ℝ)) (v : ℝ × ℝ) :
    travel_dist (l.map (fun p => (p.1 + v.1, p.2 + v.2))) = travel_dist l := by
  induction l with
  | nil => rfl
  | cons a rest ih =>
    cases rest with
    | nil => rfl
    | cons b rest2 =>
      simp only [List.map_cons] at ih ⊢
      simp only [travel_dist]
      rw [ih]
      congr 1
      ring_nf

theorem mapM_eq_map {α β : Type} (f : α → Option β) (g : α → β) :
    ∀ (l : List α), (∀ x ∈ l, f x = some (g x)) → l.mapM f = some (l.map g) := by
  intro l
  induction l with
  | nil => intro _; rfl
  | cons a t ih =>
    intro h
    rw [List.mapM_cons, h a (by simp), ih (fun x hx => h x (by simp [hx]))]
    rfl

theorem euclidean_eq_norm (a b : ℝ × ℝ) :
    euclidean a b =
      ‖((WithLp.equiv 2 (Fin 2 → ℝ)).symm ![a.1 - b.1, a.2 - b.2] :
        EuclideanSpace ℝ (Fin 2))‖ := by
  rw [EuclideanSpace.norm_eq, Fin.sum_univ_two]
  simp [euclidean, WithLp.equiv_symm_pi_apply, Real.norm_eq_abs, sq_abs]

/-- C4: on equal-length inputs `player_dist` returns a sequence of the same
length whose element at each index `i` is the Euclidean norm of the
difference of the two input points at index `i`. -/
theorem player_dist_pointwise (pa pb : List (ℝ × ℝ)) (h : pa.length = pb.length) :
    ∃ ds, player_dist pa pb = some ds ∧ ds.length = pa.length ∧
      ∀ (i : Nat) (ha : i < pa.length) (hb : i < pb.length) (hd : i < ds.length),
        ds.get ⟨i, hd⟩ =
          ‖((WithLp.equiv 2 (Fin 2 → ℝ)).symm
              ![(pa.get ⟨i, ha⟩).1 - (pb.get ⟨i, hb⟩).1,
                (pa.get ⟨i, ha⟩).2 - (pb.get ⟨i, hb⟩).2] :
            EuclideanSpace ℝ (Fin 2))‖ := by
  refine ⟨(List.range pa.length).map
    (fun i => euclidean (pa.getD i (0, 0)) (pb.getD i (0, 0))), ?_, by simp, ?_⟩
  · rw [player_dist]
    apply mapM_eq_map
    intro i hi
    rw [List.mem_range] at hi
    have hb : i < pb.length := h ▸ hi
    rw [List.getElem?_eq_getElem hi, List.getElem?_eq_getElem hb]
    simp only []
    rw [List.getD_eq_getElem pa (0, 0) hi, List.getD_eq_getElem pb (0, 0) hb]
  · intro i ha hb hd
    rw [← euclidean_eq_norm]
    simp only [List.get_eq_getElem, List.getElem_map, List.getElem_range]
    rw [List.getD_eq_getElem pa (0, 0) ha, List.getD_eq_getElem pb (0, 0) hb]

theorem player_dist_pointwise_witness :
    ∃ ds, player_dist [((0 : ℝ), 0)] [((0 : ℝ), 0)] = some ds ∧
      ds.length = ([((0 : ℝ), 0)] : List (ℝ × ℝ)).length ∧
      ∀ (i : Nat) (ha : i < ([((0 : ℝ), 0)] : List (ℝ × ℝ)).length)
        (hb : i < ([((0 : ℝ), 0)] : List (ℝ × ℝ)).length) (hd : i < ds.length),
        ds.get ⟨i, hd⟩ =
          ‖((WithLp.equiv 2 (Fin 2 → ℝ)).symm
              ![(([((0 : ℝ), 0)] : List (ℝ × ℝ)).get ⟨i, ha⟩).1 -
                  (([((0 : ℝ), 0)] : List (ℝ × ℝ)).get ⟨i, hb⟩).1,
                (([((0 : ℝ), 0)] : List (ℝ × ℝ)).get ⟨i, ha⟩).2 -
                  (([((0 : ℝ), 0)] : List (ℝ × ℝ)).get ⟨i, hb⟩).2] :
            EuclideanSpace ℝ (Fin 2))‖ :=
  player_dist_pointwise [((0 : ℝ), 0)] [((0 : ℝ), 0)] rfl

/-- C10 (implicit in the source): when the second sequence has at least as
many rows as the first, `player_dist` returns a list whose length is the
first sequence's length, ignoring the extra rows of the second. -/
theorem player_dist_len_first (pa pb : List (ℝ × ℝ)) (h : pa.length ≤ pb.length) :
    ∃ ds, player_dist pa pb = some ds ∧ ds.length = pa.length := by
  refine ⟨(List.range pa.length).map
    (fun i => euclidean (pa.getD i (0, 0)) (pb.getD i (0, 0))), ?_, by simp⟩
  rw [player_dist]
  apply mapM_eq_map
  intro i hi
  rw [List.mem_range] at hi
  have hb : i < pb.length := lt_of_lt_of_le hi h
  rw [List.getElem?_eq_getElem hi, List.getElem?_eq_getElem hb]
  simp only []
  rw [List.getD_eq_getElem pa (0, 0) hi, List.getD_eq_getElem pb (0, 0) hb]

theorem player_dist_len_first_witness :
    ∃ ds, player_dist [((0 : ℝ), 0)] [((0 : ℝ), 0), (1, 1)] = some ds ∧
      ds.length = ([((0 : ℝ), 0)] : List (ℝ × ℝ)).length :=
  player_dist_len_first [((0 : ℝ), 0)] [((0 : ℝ), 0), (1, 1)] (by simp)

/-- C3 (the claim fails on the code): with a first sequence of length 1 and a
second of length 2 — lengths differ — `player_dist` returns a one-element
result instead of failing. -/
theorem player_dist_mismatch_returns :
    player_dist [((0 : ℝ), 0)] [((0 : ℝ), 0), (3, 4)] = some [0] := by
  rw [player_dist]
  simp only [List.length_singleton]
  rw [show List.range 1 = [0] from by decide, List.mapM_cons, List.mapM_nil]
  simp [euclidean]

/-- C8: `draw_court` builds exactly 20 primitives, their coordinates are the
fixed regulation coordinates independently of the styling arguments, and two
invocations (any arguments) place the primitives at identical coordinates. -/
theorem draw_court_fixed (c c2 : String) (lw z lw2 z2 : Rat) :
    (draw_court c lw z).length = 20 ∧
    (draw_court c lw z).map patchXY = courtXY ∧
    (draw_court c2 lw2 z2).map patchXY = (draw_court c lw z).map patchXY :=
  ⟨rfl, rfl, rfl⟩

end NbaMovements
